import Mathlib

/-!
# trust-manager bundle injector: `pkg/bundle/inject/controller.go`

A shallow embedding of the two controllers of `pkg/bundle/inject` (the `Injector` and the
`Cleaner`), of the library calls they make (apply-configuration builders, event predicates,
`crypto/sha256`, `fmt.Sprintf("%x", …)`), and of the declarative merge primitive they submit
their patches to.

* Go `map[string]string` values are `GoMap`: `none` is the nil map, `some m` an allocated
  finite map.
* Go `error` values are `Option Error`: `none` is the nil error.
* Stateful code (`client.Patch`) is explicit state passing over the state of the client.
-/

namespace inject

/-! ## Go values -/

/-- Finite maps from strings to strings: the contents of an allocated Go `map[string]string`. -/
abbrev StrMap := Finmap (fun _ : String => String)

/-- Go variable of type `map[string]string`: `none` is the nil map. -/
abbrev GoMap := Option StrMap

/-- Map literal `map[string]string{k: v}`. -/
def GoMap.lit (k v : String) : GoMap := some (Finmap.singleton k v)

/-- Lookup in a Go map; reading a nil map finds nothing. -/
def GoMap.get? (m : GoMap) (key : String) : Option String :=
  match m with
  | none => none
  | some f => f.lookup key

/-- Go two-valued index expression `v, ok := m[key]`. -/
def GoMap.index (m : GoMap) (key : String) : String × Bool :=
  match m.get? key with
  | some v => (v, true)
  | none => ("", false)

/-- Go `len(m)`; the length of a nil map is zero. -/
def GoMap.len (m : GoMap) : Nat :=
  match m with
  | none => 0
  | some f => f.keys.card

/-- Go `error` values that a patch submission can produce. -/
inductive Error where
  | NotFound
  | Conflict
  | Other (msg : String)
deriving DecidableEq, Repr

/-! ## `crypto/sha256` and `fmt.Sprintf("%x", …)` -/

namespace sha256

/-- Round constants of SHA-256 (FIPS 180-4, section 4.2.2). -/
def K : List Nat := [
  0x428a2f98, 0x71374491, 0xb5c0fbcf, 0xe9b5dba5, 0x3956c25b, 0x59f111f1, 0x923f82a4, 0xab1c5ed5,
  0xd807aa98, 0x12835b01, 0x243185be, 0x550c7dc3, 0x72be5d74, 0x80deb1fe, 0x9bdc06a7, 0xc19bf174,
  0xe49b69c1, 0xefbe4786, 0x0fc19dc6, 0x240ca1cc, 0x2de92c6f, 0x4a7484aa, 0x5cb0a9dc, 0x76f988da,
  0x983e5152, 0xa831c66d, 0xb00327c8, 0xbf597fc7, 0xc6e00bf3, 0xd5a79147, 0x06ca6351, 0x14292967,
  0x27b70a85, 0x2e1b2138, 0x4d2c6dfc, 0x53380d13, 0x650a7354, 0x766a0abb, 0x81c2c92e, 0x92722c85,
  0xa2bfe8a1, 0xa81a664b, 0xc24b8b70, 0xc76c51a3, 0xd192e819, 0xd6990624, 0xf40e3585, 0x106aa070,
  0x19a4c116, 0x1e376c08, 0x2748774c, 0x34b0bcb5, 0x391c0cb3, 0x4ed8aa4a, 0x5b9cca4f, 0x682e6ff3,
  0x748f82ee, 0x78a5636f, 0x84c87814, 0x8cc70208, 0x90befffa, 0xa4506ceb, 0xbef9a3f7, 0xc67178f2]

/-- Addition of 32-bit words. -/
def add32 (a b : Nat) : Nat := (a + b) % 4294967296

/-- Rotation of a 32-bit word to the right by `n` bits. -/
def rotr (n x : Nat) : Nat := ((x >>> n) ||| (x <<< (32 - n))) % 4294967296

def ch (x y z : Nat) : Nat := (x &&& y) ^^^ ((x ^^^ 4294967295) &&& z)

def maj (x y z : Nat) : Nat := (x &&& y) ^^^ (x &&& z) ^^^ (y &&& z)

def bsig0 (x : Nat) : Nat := rotr 2 x ^^^ rotr 13 x ^^^ rotr 22 x

def bsig1 (x : Nat) : Nat := rotr 6 x ^^^ rotr 11 x ^^^ rotr 25 x

def ssig0 (x : Nat) : Nat := rotr 7 x ^^^ rotr 18 x ^^^ (x >>> 3)

def ssig1 (x : Nat) : Nat := rotr 17 x ^^^ rotr 19 x ^^^ (x >>> 10)

/-- Message padding: a `1` bit, zero bits up to 56 modulo 64 bytes, then the bit length of
the message as a 64-bit big-endian integer. -/
def pad (msg : List Nat) : List Nat :=
  let len := msg.length
  let zeros := (119 - len % 64) % 64
  msg ++ [128] ++ List.replicate zeros 0
    ++ (List.range 8).map (fun i => ((8 * len) >>> (8 * (7 - i))) % 256)

/-- The first `n` big-endian 32-bit words of a byte sequence. -/
def words : Nat → List Nat → List Nat
  | n + 1, b0 :: b1 :: b2 :: b3 :: rest =>
      (((b0 * 256 + b1) * 256 + b2) * 256 + b3) :: words n rest
  | _, _ => []

/-- Message schedule: the 16 words of a block extended to 64 words. -/
def schedule (w : List Nat) : List Nat :=
  (List.range 48).foldl (fun w i =>
    let t := i + 16
    w ++ [add32 (add32 (add32 (ssig1 (w.getD (t - 2) 0)) (w.getD (t - 7) 0))
      (ssig0 (w.getD (t - 15) 0))) (w.getD (t - 16) 0)]) w

/-- The eight working variables, also used for the intermediate hash value. -/
structure Vars where
  a : Nat
  b : Nat
  c : Nat
  d : Nat
  e : Nat
  f : Nat
  g : Nat
  h : Nat

/-- One of the 64 rounds of the compression function. -/
def round (v : Vars) (k w : Nat) : Vars :=
  let t1 := add32 (add32 (add32 (add32 v.h (bsig1 v.e)) (ch v.e v.f v.g)) k) w
  let t2 := add32 (bsig0 v.a) (maj v.a v.b v.c)
  ⟨add32 t1 t2, v.a, v.b, v.c, add32 v.d t1, v.e, v.f, v.g⟩

/-- Compression of one 64-byte block into the intermediate hash value. -/
def compress (h : Vars) (block : List Nat) : Vars :=
  let w := schedule (words 16 block)
  let v := (List.zip K w).foldl (fun v kw => round v kw.1 kw.2) h
  ⟨add32 h.a v.a, add32 h.b v.b, add32 h.c v.c, add32 h.d v.d,
   add32 h.e v.e, add32 h.f v.f, add32 h.g v.g, add32 h.h v.h⟩

/-- Compression of the first `n` blocks of a padded message. -/
def blocks : Nat → Vars → List Nat → Vars
  | n + 1, h, m => blocks n (compress h (m.take 64)) (m.drop 64)
  | 0, h, _ => h

/-- Big-endian bytes of a 32-bit word. -/
def wordBytes (x : Nat) : List Nat :=
  [(x >>> 24) % 256, (x >>> 16) % 256, (x >>> 8) % 256, x % 256]

/-- Go `sha256.Sum256`: the 32-byte SHA-256 digest (FIPS 180-4) of a byte sequence. -/
def Sum256 (msg : List Nat) : List Nat :=
  let m := pad msg
  let h := blocks (m.length / 64) ⟨0x6a09e667, 0xbb67ae85, 0x3c6ef372, 0xa54ff53a,
    0x510e527f, 0x9b05688c, 0x1f83d9ab, 0x5be0cd19⟩ m
  wordBytes h.a ++ wordBytes h.b ++ wordBytes h.c ++ wordBytes h.d ++
  wordBytes h.e ++ wordBytes h.f ++ wordBytes h.g ++ wordBytes h.h

end sha256

/-- UTF-8 encoding of one code point. -/
def utf8 (c : Char) : List Nat :=
  let n := c.toNat
  if n < 128 then [n]
  else if n < 2048 then [192 + n / 64, 128 + n % 64]
  else if n < 65536 then [224 + n / 4096, 128 + n / 64 % 64, 128 + n % 64]
  else [240 + n / 262144, 128 + n / 4096 % 64, 128 + n / 64 % 64, 128 + n % 64]

/-- Go conversion `[]byte(s)`: the UTF-8 bytes of a string. -/
def bytes (s : String) : List Nat := s.data.flatMap utf8

/-- Lowercase hexadecimal digit of a value below 16. -/
def hexDigit (n : Nat) : Char :=
  if n < 10 then Char.ofNat (48 + n) else Char.ofNat (87 + n)

/-- Go `fmt.Sprintf("%x", b)` on a byte array: two lowercase hexadecimal digits per byte. -/
def Sprintf_x (bs : List Nat) : String :=
  String.mk (bs.flatMap (fun b => [hexDigit (b / 16), hexDigit (b % 16)]))

/-- The digest of the specification (its `hash`): the lowercase hex encoding of the
SHA-256 of the content. -/
def contentHash (content : String) : String := Sprintf_x (sha256.Sum256 (bytes content))

/-! ## Objects, events and predicates (`controller-runtime`) -/

/-- Identity of a namespaced object. -/
structure ObjectKey where
  Namespace : String
  Name : String
deriving DecidableEq, Repr

/-- Go `metav1.TypeMeta`. -/
structure TypeMeta where
  APIVersion : String
  Kind : String
deriving DecidableEq, Repr

/-- Go `metav1.PartialObjectMetadata`, the `client.Object` the predicates are evaluated on. -/
structure Object where
  TypeMeta : TypeMeta
  Namespace : String
  Name : String
  Labels : GoMap
  Annotations : GoMap

/-- Go `obj.GetLabels()`. -/
def Object.GetLabels (obj : Object) : GoMap := obj.Labels

/-- Go `obj.GetAnnotations()`. -/
def Object.GetAnnotations (obj : Object) : GoMap := obj.Annotations

/-- The events of `controller-runtime` that a predicate is asked about. -/
inductive Event where
  | Create (obj : Object)
  | Update (objectOld objectNew : Object)
  | Delete (obj : Object)
  | Generic (obj : Object)

/-- The resource state an event reports: for an update, the new object. -/
def Event.Object : Event → Object
  | .Create obj => obj
  | .Update _ objectNew => objectNew
  | .Delete obj => obj
  | .Generic obj => obj

namespace predicate

/-- Go `predicate.Predicate`: the decision whether an event is passed on. -/
abbrev Predicate := Event → Bool

/-- Go `predicate.NewPredicateFuncs`: the filter applied to the object of every kind of
event, for an update to the new object. -/
def NewPredicateFuncs (filter : Object → Bool) : Predicate
  | .Create obj => filter obj
  | .Update _ objectNew => filter objectNew
  | .Delete obj => filter obj
  | .Generic obj => filter obj

/-- Go `predicate.Not`. -/
def Not (p : Predicate) : Predicate := fun e => !p e

end predicate

namespace builder

/-- Go `builder.WithPredicates`: an event is passed on when every predicate accepts it. -/
def WithPredicates (ps : List predicate.Predicate) : predicate.Predicate :=
  fun e => ps.all (fun p => p e)

end builder

/-- The registration a controller makes with the manager: its name, the kind it watches
and its event filter. -/
structure Controller where
  Named : String
  For : TypeMeta
  Predicates : predicate.Predicate

/-! ## Apply configurations (`client-go`) -/

/-- Go `v1.ConfigMapApplyConfiguration`: the declarative partial object. -/
structure ConfigMapApplyConfiguration where
  Kind : Option String
  APIVersion : Option String
  Name : Option String
  Namespace : Option String
  Labels : GoMap
  Annotations : GoMap
  Data : GoMap

/-- Go loop `for k, v := range entries { m[k] = v }` of the `With…` builders, preceded by
the allocation of `m` when it is nil and there are entries. -/
def putAll (m entries : GoMap) : GoMap :=
  let m := if m = none ∧ entries.len > 0 then some ∅ else m
  match m, entries with
  | some f, some es => some (es ∪ f)
  | m, _ => m

namespace v1

/-- Go `v1.ConfigMap(name, namespace)`; `ns` is the namespace. -/
def ConfigMap (name ns : String) : ConfigMapApplyConfiguration :=
  { Kind := some "ConfigMap", APIVersion := some "v1", Name := some name,
    Namespace := some ns, Labels := none, Annotations := none, Data := none }

end v1

/-- Go `(*ConfigMapApplyConfiguration).WithAnnotations`. -/
def ConfigMapApplyConfiguration.WithAnnotations (b : ConfigMapApplyConfiguration)
    (entries : GoMap) : ConfigMapApplyConfiguration :=
  { b with Annotations := putAll b.Annotations entries }

/-- Go `(*ConfigMapApplyConfiguration).WithData`. -/
def ConfigMapApplyConfiguration.WithData (b : ConfigMapApplyConfiguration)
    (entries : GoMap) : ConfigMapApplyConfiguration :=
  { b with Data := putAll b.Data entries }

/-! ## The client -/

/-- Go `client.Patch` value of an apply patch: the encoded apply configuration. -/
structure Patch where
  Data : ConfigMapApplyConfiguration

/-- Go `client.Client`, as far as the controllers use it: `Patch(ctx, obj, patch, opts...)`
with the options `client.FieldOwner(owner)` and, when `force` holds,
`client.ForceOwnership`; `σ` is the state behind the client. -/
structure Client (σ : Type) where
  Patch : ObjectKey → Patch → (owner : String) → (force : Bool) → σ → Option Error × σ

/-- Go `reconcile.Request`. -/
structure Request where
  Namespace : String
  Name : String
deriving DecidableEq, Repr

/-- Go `reconcile.Result`. -/
structure Result where
  Requeue : Bool
  RequeueAfter : Nat
deriving DecidableEq, Repr

/-- Signature of `ssa_client.GenerateConfigMapPatch`: `(configMap, patch, err)`. -/
abbrev PatchGenerator := ConfigMapApplyConfiguration → Except Error (ObjectKey × Patch)

/-! ## `controller.go` -/

def BundleInjectLabelKey : String := "trust-manager.io/inject-bundle"

def fieldManager : String := "trust-manager-injector"

def configMap : TypeMeta := { APIVersion := "v1", Kind := "ConfigMap" }

def hasLabel (key : String) : predicate.Predicate :=
  predicate.NewPredicateFuncs (fun obj => (obj.GetLabels.index key).2)

def hasAnnotation (key : String) : predicate.Predicate :=
  predicate.NewPredicateFuncs (fun obj => (obj.GetAnnotations.index key).2)

/-- Source `patchConfigMap`; `generate` stands for `ssa_client.GenerateConfigMapPatch`. -/
def patchConfigMap {σ : Type} (generate : PatchGenerator) (c : Client σ)
    (applyConfig : ConfigMapApplyConfiguration) (s : σ) : Option Error × σ :=
  match generate applyConfig with
  | .error err => (some err, s)
  | .ok (configMap, patch) => c.Patch configMap patch fieldManager true s

namespace Injector

def SetupWithManager : Controller :=
  { Named := "configmap-injector"
    For := configMap
    Predicates := builder.WithPredicates [hasLabel BundleInjectLabelKey] }

/-- Local `data` of `Injector.Reconcile`. -/
def data : GoMap := GoMap.lit "ca.crt" "bundle data"

/-- Local `dataHash` of `Injector.Reconcile`. -/
def dataHash : String := Sprintf_x (sha256.Sum256 (bytes "bundle data hash"))

/-- Local `applyConfig` of `Injector.Reconcile`; `BundleHashAnnotationKey` is the constant
`v1alpha1.BundleHashAnnotationKey`. -/
def applyConfig (BundleHashAnnotationKey : String) (request : Request) :
    ConfigMapApplyConfiguration :=
  ((v1.ConfigMap request.Name request.Namespace).WithAnnotations
    (GoMap.lit BundleHashAnnotationKey dataHash)).WithData data

/-- Source `Injector.Reconcile`: the returned `(reconcile.Result, error)` and the state
behind the client afterwards. -/
def Reconcile {σ : Type} (generate : PatchGenerator) (i : Client σ)
    (BundleHashAnnotationKey : String) (request : Request) (s : σ) :
    (Result × Option Error) × σ :=
  let out := patchConfigMap generate i (applyConfig BundleHashAnnotationKey request) s
  ((⟨false, 0⟩, out.1), out.2)

end Injector

namespace Cleaner

/-- Source `Cleaner.SetupWithManager`; `BundleHashAnnotationKey` is the constant
`v1alpha1.BundleHashAnnotationKey`. -/
def SetupWithManager (BundleHashAnnotationKey : String) : Controller :=
  { Named := "configmap-injector-cleaner"
    For := configMap
    Predicates := builder.WithPredicates
      [ hasAnnotation BundleHashAnnotationKey, predicate.Not (hasLabel BundleInjectLabelKey)] }

/-- Local `applyConfig` of `Cleaner.Reconcile`. -/
def applyConfig (request : Request) : ConfigMapApplyConfiguration :=
  v1.ConfigMap request.Name request.Namespace

/-- Source `Cleaner.Reconcile`: the returned `(reconcile.Result, error)` and the state
behind the client afterwards. -/
def Reconcile {σ : Type} (generate : PatchGenerator) (c : Client σ) (request : Request)
    (s : σ) : (Result × Option Error) × σ :=
  let out := patchConfigMap generate c (applyConfig request) s
  ((⟨false, 0⟩, out.1), out.2)

end Cleaner

/-! ## The declarative merge primitive

The controllers hand their patches to the API server, an external collaborator. Its state
and its field-scoped merge are modelled here from the description the specification gives
of them. -/

/-- Modelled from the spec: `ssa_client.GenerateConfigMapPatch` is code of the package
`pkg/bundle/internal/ssa_client`, which is not among the sources. It yields the object
named by the apply configuration and an apply patch whose body is the encoded apply
configuration; a configuration without name or namespace is the "missing required
identity" contract violation of section 7, surfaced as an error. -/
def GenerateConfigMapPatch : PatchGenerator := fun patch =>
  match patch.Name, patch.Namespace with
  | some name, some ns => .ok (⟨ns, name⟩, ⟨patch⟩)
  | _, _ => .error (.Other "patch must have a name and namespace")

/-- The leaf fields of a target resource that a patch can name. -/
inductive Field where
  | Label (key : String)
  | Annot (key : String)
  | Data (key : String)
deriving DecidableEq, Repr

/-- Modelled from the spec: the stored state of a Target Resource (section 3): its labels,
annotations and data, and the Field Ownership the merge primitive records, the identity
(field manager) owning each field, if any. -/
structure Resource where
  Labels : String → Option String
  Annotations : String → Option String
  Data : String → Option String
  Owner : Field → Option String

/-- The value of a field of a stored resource. -/
def Resource.get (r : Resource) : Field → Option String
  | .Label k => r.Labels k
  | .Annot k => r.Annotations k
  | .Data k => r.Data k

/-- The value a patch sets for a field, `none` when the patch does not name the field. -/
def ConfigMapApplyConfiguration.get (p : ConfigMapApplyConfiguration) : Field → Option String
  | .Label k => p.Labels.get? k
  | .Annot k => p.Annotations.get? k
  | .Data k => p.Data.get? k

/-- Whether some entry of a Go map satisfies `f`. -/
def GoMap.any (m : GoMap) (f : String → String → Bool) : Bool :=
  match m with
  | none => false
  | some es => es.any f

/-- A field-level conflict: the patch sets the field to `v`, another identity owns the
field and the live value differs. -/
def Resource.conflict (r : Resource) (owner : String) (f : Field) (v : String) : Bool :=
  match r.Owner f with
  | some o => decide (o ≠ owner) && decide (r.get f ≠ some v)
  | none => false

/-- Whether a patch has a field-level conflict with another writer. -/
def Resource.conflicts (r : Resource) (p : ConfigMapApplyConfiguration) (owner : String) :
    Bool :=
  p.Labels.any (fun k v => r.conflict owner (.Label k) v) ||
  p.Annotations.any (fun k v => r.conflict owner (.Annot k) v) ||
  p.Data.any (fun k v => r.conflict owner (.Data k) v)

/-- Modelled from the spec: the field-scoped merge of a patch into live state (sections
4.3 and 4.4). A field the patch names takes the value of the patch and is owned by the
submitting identity afterwards; a field this identity owned before and the patch omits is
released and removed; every other field, owned by another writer or by none, is left
untouched. -/
def Resource.apply (r : Resource) (p : ConfigMapApplyConfiguration) (owner : String) :
    Resource :=
  let value : Field → Option String := fun f =>
    match p.get f with
    | some v => some v
    | none => if r.Owner f = some owner then none else r.get f
  { Labels := fun k => value (.Label k)
    Annotations := fun k => value (.Annot k)
    Data := fun k => value (.Data k)
    Owner := fun f =>
      match p.get f with
      | some _ => some owner
      | none => if r.Owner f = some owner then none else r.Owner f }

/-- Modelled from the spec: the resource store, the target resources by identity. -/
abbrev Store := ObjectKey → Option Resource

/-- Modelled from the spec: the resource store client `ApplyPatch(resourceID,
partialDesiredState, ownerIdentity, force)` of section 6. A resource that does not exist
is not found (this core only patches existing instances); without forced ownership a
field-level conflict with another writer fails the submission; otherwise the patch is
merged into the live state of the resource in one atomic step. -/
def apiServer : Client Store where
  Patch := fun key patch owner force s =>
    match s key with
    | none => (some .NotFound, s)
    | some r =>
      if !force && r.conflicts patch.Data owner then (some .Conflict, s)
      else (none, Function.update s key (some (r.apply patch.Data owner)))

/-- The identity a reconcile request names. -/
def Request.key (request : Request) : ObjectKey := ⟨request.Namespace, request.Name⟩

/-- The two reconcile operations. -/
inductive Op where
  | Inject
  | Clean
deriving DecidableEq, Repr

/-- The store after one reconcile of the given controller against the API server. -/
def step (BundleHashAnnotationKey : String) (op : Op) (request : Request) (s : Store) :
    Store :=
  match op with
  | .Inject =>
    (Injector.Reconcile GenerateConfigMapPatch apiServer BundleHashAnnotationKey request s).2
  | .Clean => (Cleaner.Reconcile GenerateConfigMapPatch apiServer request s).2

/-- The store after a finite sequence of reconciles, each for its own request. -/
def run (BundleHashAnnotationKey : String) : List (Op × Request) → Store → Store
  | [], s => s
  | (op, request) :: rest, s =>
    run BundleHashAnnotationKey rest (step BundleHashAnnotationKey op request s)

/-- The value of a field of a resource in the store: `none` when the resource does not
exist, `some none` when it exists without the field. -/
def Store.field (s : Store) (key : ObjectKey) (f : Field) : Option (Option String) :=
  (s key).map (fun r => r.get f)

/-- A client whose every patch submission fails with a not-found error. -/
def goneClient : Client Unit where
  Patch := fun _ _ _ _ s => (some .NotFound, s)

/-- Modelled from the spec: a Target Resource as an actor outside this core creates it
(section 3): the given labels, annotations and data, every field it has owned by its
creator. -/
def Resource.created (labels annotations data : String → Option String) (creator : String) :
    Resource :=
  { Labels := labels
    Annotations := annotations
    Data := data
    Owner := fun f =>
      match f with
      | .Label k => (labels k).map (fun _ => creator)
      | .Annot k => (annotations k).map (fun _ => creator)
      | .Data k => (data k).map (fun _ => creator) }

/-- The labels of the ConfigMap of the integration test. -/
def testLabels : String → Option String :=
  fun k => if k = "trust-manager.io/inject-bundle" then some "foo-bundle"
    else if k = "app" then some "my-app" else none

/-- The data of the ConfigMap of the integration test. -/
def testData : String → Option String :=
  fun k => if k = "tls.crt" then some "bar" else if k = "tls.key" then some "baz" else none

/-- The ConfigMap of the integration test: two labels, no annotation, two data keys,
created by the test client. -/
def testConfigMap : Resource :=
  Resource.created testLabels (fun _ => none) testData "integration-test"

/-- The request for the ConfigMap of the integration test. -/
def testRequest : Request := ⟨"inject-1", "cm-1"⟩

/-- A store that holds the ConfigMap of the integration test and nothing else. -/
def testStore : Store := fun key => if key = ⟨"inject-1", "cm-1"⟩ then some testConfigMap else none

/-- The same ConfigMap, applied by a writer under the identity `fieldManager`, which
therefore owns all its fields. -/
def ownedConfigMap : Resource :=
  Resource.created testLabels (fun _ => none) testData fieldManager

/-- A store that holds `ownedConfigMap` and nothing else. -/
def ownedStore : Store :=
  fun key => if key = ⟨"inject-1", "cm-1"⟩ then some ownedConfigMap else none

/-! ## Auxiliary facts -/

theorem lookup_singleton (k v x : String) :
    (Finmap.singleton k v : StrMap).lookup x = if x = k then some v else none := by
  by_cases h : x = k
  · subst h
    simp [Finmap.lookup_singleton_eq]
  · rw [if_neg h, Finmap.lookup_eq_none, Finmap.mem_singleton]
    exact h

theorem putAll_nil_lit (k v : String) : putAll none (GoMap.lit k v) = GoMap.lit k v := by
  simp [putAll, GoMap.lit, GoMap.len, Finmap.keys_singleton]

theorem get?_lit (k v x : String) :
    (GoMap.lit k v).get? x = if x = k then some v else none := by
  simp [GoMap.lit, GoMap.get?, lookup_singleton]

theorem get?_nil (x : String) : GoMap.get? none x = none := rfl

/-- The fields the patch of the Injector names, and their values. -/
theorem injector_applyConfig_get (hk : String) (request : Request) (f : Field) :
    (Injector.applyConfig hk request).get f =
      match f with
      | .Label _ => none
      | .Annot k => if k = hk then some Injector.dataHash else none
      | .Data k => if k = "ca.crt" then some "bundle data" else none := by
  cases f <;>
    simp [Injector.applyConfig, ConfigMapApplyConfiguration.get,
      ConfigMapApplyConfiguration.WithAnnotations, ConfigMapApplyConfiguration.WithData,
      v1.ConfigMap, putAll_nil_lit, get?_lit, Injector.data, get?_nil]

/-- The patch of the Cleaner names no field. -/
theorem cleaner_applyConfig_get (request : Request) (f : Field) :
    (Cleaner.applyConfig request).get f = none := by
  cases f <;> simp [Cleaner.applyConfig, ConfigMapApplyConfiguration.get, v1.ConfigMap, get?_nil]

/-- What `Injector.Reconcile` does with any client: one submission, for the object the
request names, of its apply configuration, as `fieldManager` with forced ownership. -/
theorem injector_Reconcile_eq {σ : Type} (c : Client σ) (hk : String) (request : Request)
    (s : σ) :
    Injector.Reconcile GenerateConfigMapPatch c hk request s =
      ((⟨false, 0⟩, (c.Patch request.key ⟨Injector.applyConfig hk request⟩ fieldManager true s).1),
        (c.Patch request.key ⟨Injector.applyConfig hk request⟩ fieldManager true s).2) := rfl

/-- What `Cleaner.Reconcile` does with any client. -/
theorem cleaner_Reconcile_eq {σ : Type} (c : Client σ) (request : Request) (s : σ) :
    Cleaner.Reconcile GenerateConfigMapPatch c request s =
      ((⟨false, 0⟩, (c.Patch request.key ⟨Cleaner.applyConfig request⟩ fieldManager true s).1),
        (c.Patch request.key ⟨Cleaner.applyConfig request⟩ fieldManager true s).2) := rfl

/-- The value hashed by `Injector.Reconcile`, evaluated. -/
theorem dataHash_eq :
    Injector.dataHash = "33640d158e9a3673ef8c9d54b9c64fd3822a672ca8bbbf131a00b1274e5de2e4" := by
  decide!

/-- The digest of the content `Injector.Reconcile` injects, evaluated. -/
theorem contentHash_bundle_data :
    contentHash "bundle data" =
      "b4c51536de95e821e5b5a6b361233f896d69739a7d8f2d18518eeda9c9e36e69" := by
  decide!

/-- The result of a two-valued index expression says whether the key is present. -/
theorem index_snd (m : GoMap) (key : String) :
    (m.index key).2 = true ↔ ∃ v, m.get? key = some v := by
  unfold GoMap.index
  cases h : m.get? key <;> simp

/-- The filter of the Injector on an event, in terms of the object it reports. -/
theorem injector_filter_eq (e : Event) :
    Injector.SetupWithManager.Predicates e = (e.Object.Labels.index BundleInjectLabelKey).2 := by
  cases e <;>
    simp [Injector.SetupWithManager, builder.WithPredicates, hasLabel,
      predicate.NewPredicateFuncs, Event.Object, Object.GetLabels]

/-- The filter of the Cleaner on an event, in terms of the object it reports. -/
theorem cleaner_filter_eq (hk : String) (e : Event) :
    (Cleaner.SetupWithManager hk).Predicates e =
      ((e.Object.Annotations.index hk).2 && !(e.Object.Labels.index BundleInjectLabelKey).2) := by
  cases e <;>
    simp [Cleaner.SetupWithManager, builder.WithPredicates, hasLabel, hasAnnotation,
      predicate.NewPredicateFuncs, predicate.Not, Event.Object, Object.GetLabels,
      Object.GetAnnotations]

/-- The value of a field after the merge of a patch. -/
theorem apply_get (r : Resource) (p : ConfigMapApplyConfiguration) (owner : String)
    (f : Field) :
    (r.apply p owner).get f =
      match p.get f with
      | some v => some v
      | none => if r.Owner f = some owner then none else r.get f := by
  cases f <;> rfl

/-- The owner of a field after the merge of a patch. -/
theorem apply_Owner (r : Resource) (p : ConfigMapApplyConfiguration) (owner : String)
    (f : Field) :
    (r.apply p owner).Owner f =
      match p.get f with
      | some _ => some owner
      | none => if r.Owner f = some owner then none else r.Owner f := rfl

/-- After a merge the submitting identity owns exactly the fields the patch names. -/
theorem apply_Owner_eq_iff (r : Resource) (p : ConfigMapApplyConfiguration) (owner : String)
    (f : Field) : (r.apply p owner).Owner f = some owner ↔ ∃ v, p.get f = some v := by
  rw [apply_Owner]
  cases h : p.get f with
  | some v => simp
  | none =>
    by_cases ho : r.Owner f = some owner
    · simp [ho]
    · simp [ho]

/-- Two stored resources with the same field values and the same owners are equal. -/
theorem resource_ext (r r' : Resource) (hget : ∀ f, r.get f = r'.get f)
    (hown : ∀ f, r.Owner f = r'.Owner f) : r = r' := by
  cases r with
  | mk l a d o =>
    cases r' with
    | mk l' a' d' o' =>
      have hl : l = l' := funext fun k => hget (.Label k)
      have ha : a = a' := funext fun k => hget (.Annot k)
      have hd : d = d' := funext fun k => hget (.Data k)
      have ho : o = o' := funext hown
      rw [hl, ha, hd, ho]

/-- Merging the same patch a second time changes nothing. -/
theorem apply_apply (r : Resource) (p : ConfigMapApplyConfiguration) (owner : String) :
    (r.apply p owner).apply p owner = r.apply p owner := by
  apply resource_ext
  · intro f
    rw [apply_get (r.apply p owner), apply_Owner, apply_get]
    cases h : p.get f with
    | some v => rfl
    | none =>
      by_cases ho : r.Owner f = some owner
      · simp [ho]
      · simp [ho]
  · intro f
    rw [apply_Owner (r.apply p owner), apply_Owner]
    cases h : p.get f with
    | some v => rfl
    | none =>
      by_cases ho : r.Owner f = some owner
      · simp [ho]
      · simp [ho]

/-- A forced submission to the API server: not found for a missing resource, the merge
for an existing one. -/
theorem apiServer_Patch_force (key : ObjectKey) (p : Patch) (owner : String) (s : Store) :
    apiServer.Patch key p owner true s =
      match s key with
      | none => (some Error.NotFound, s)
      | some r => (none, Function.update s key (some (r.apply p.Data owner))) := by
  simp only [apiServer]
  cases s key <;> simp

/-- One reconcile of the Injector against the API server. -/
theorem injector_step_eq (hk : String) (request : Request) (s : Store) :
    Injector.Reconcile GenerateConfigMapPatch apiServer hk request s =
      match s request.key with
      | none => ((⟨false, 0⟩, some Error.NotFound), s)
      | some r => ((⟨false, 0⟩, none),
          Function.update s request.key
            (some (r.apply (Injector.applyConfig hk request) fieldManager))) := by
  rw [injector_Reconcile_eq, apiServer_Patch_force]
  cases s request.key <;> rfl

/-- One reconcile of the Cleaner against the API server. -/
theorem cleaner_step_eq (request : Request) (s : Store) :
    Cleaner.Reconcile GenerateConfigMapPatch apiServer request s =
      match s request.key with
      | none => ((⟨false, 0⟩, some Error.NotFound), s)
      | some r => ((⟨false, 0⟩, none),
          Function.update s request.key
            (some (r.apply (Cleaner.applyConfig request) fieldManager))) := by
  rw [cleaner_Reconcile_eq, apiServer_Patch_force]
  cases s request.key <;> rfl

/-- The patch of either controller names only the two fields of this subsystem. -/
theorem patch_names_only_injected (hk : String) (op : Op) (request : Request) (f : Field)
    (hd : f ≠ .Data "ca.crt") (ha : f ≠ .Annot hk) :
    (match op with
      | .Inject => Injector.applyConfig hk request
      | .Clean => Cleaner.applyConfig request).get f = none := by
  cases op with
  | Clean => exact cleaner_applyConfig_get request f
  | Inject =>
    show (Injector.applyConfig hk request).get f = none
    rw [injector_applyConfig_get]
    cases f with
    | Label k => rfl
    | Annot k =>
      have : k ≠ hk := fun h => ha (by rw [h])
      simp [this]
    | Data k =>
      have : k ≠ "ca.crt" := fun h => hd (by rw [h])
      simp [this]

/-- One reconcile step against the API server, for either controller. -/
theorem step_eq (hk : String) (op : Op) (request : Request) (s : Store) :
    step hk op request s =
      match s request.key with
      | none => s
      | some r => Function.update s request.key
          (some (r.apply
            (match op with
              | .Inject => Injector.applyConfig hk request
              | .Clean => Cleaner.applyConfig request) fieldManager)) := by
  cases op with
  | Inject =>
    show (Injector.Reconcile GenerateConfigMapPatch apiServer hk request s).2 = _
    rw [injector_step_eq]
    cases s request.key <;> rfl
  | Clean =>
    show (Cleaner.Reconcile GenerateConfigMapPatch apiServer request s).2 = _
    rw [cleaner_step_eq]
    cases s request.key <;> rfl

/-- A field that neither patch names and that the identity `fieldManager` does not own
is, after a reconcile step, still not owned by it and has the value it had. -/
theorem step_unowned (hk : String) (op : Op) (request : Request) (s : Store)
    (key : ObjectKey) (f : Field) (hd : f ≠ .Data "ca.crt") (ha : f ≠ .Annot hk)
    (hfree : ∀ r, s key = some r → r.Owner f ≠ some fieldManager) :
    (∀ r, step hk op request s key = some r → r.Owner f ≠ some fieldManager) ∧
    (step hk op request s).field key f = s.field key f := by
  rw [step_eq]
  cases hs : s request.key with
  | none => exact ⟨hfree, rfl⟩
  | some r0 =>
    by_cases hkey : key = request.key
    · subst hkey
      have ho : r0.Owner f ≠ some fieldManager := hfree r0 hs
      constructor
      · intro r hr
        simp only [Function.update_same, Option.some.injEq] at hr
        rw [← hr, apply_Owner, patch_names_only_injected hk op request f hd ha]
        simp [ho]
      · simp only [Store.field, Function.update_same, hs, Option.map_some']
        rw [apply_get, patch_names_only_injected hk op request f hd ha]
        simp [ho]
    · constructor
      · intro r hr
        simp only [Function.update_noteq hkey] at hr
        exact hfree r hr
      · simp only [Store.field, Function.update_noteq hkey]

/-- A field that neither patch names and that the identity `fieldManager` does not own
has, after every finite sequence of reconciles, the value it had. -/
theorem run_field (hk : String) (key : ObjectKey) (f : Field) (hd : f ≠ .Data "ca.crt")
    (ha : f ≠ .Annot hk) (ops : List (Op × Request)) :
    ∀ s : Store, (∀ r, s key = some r → r.Owner f ≠ some fieldManager) →
      (run hk ops s).field key f = s.field key f := by
  induction ops with
  | nil => intro s _; rfl
  | cons o rest ih =>
    intro s h
    obtain ⟨op, request⟩ := o
    show (run hk rest (step hk op request s)).field key f = _
    rw [ih _ (step_unowned hk op request s key f hd ha h).1,
      (step_unowned hk op request s key f hd ha h).2]

/-- The value of a field after the merge of the patch of the Injector and then of the
patch of the Cleaner. -/
theorem inject_then_clean_get (hk : String) (request : Request) (r : Resource) (f : Field) :
    ((r.apply (Injector.applyConfig hk request) fieldManager).apply
        (Cleaner.applyConfig request) fieldManager).get f =
      match (Injector.applyConfig hk request).get f with
      | some _ => none
      | none => if r.Owner f = some fieldManager then none else r.get f := by
  rw [apply_get, cleaner_applyConfig_get]
  simp only [apply_Owner, apply_get]
  cases h : (Injector.applyConfig hk request).get f with
  | some v => simp
  | none => by_cases ho : r.Owner f = some fieldManager <;> simp [ho]

/-- The identity `fieldManager` owns no field of a resource created by another identity. -/
theorem created_Owner_ne (labels annotations data : String → Option String)
    (creator : String) (hc : creator ≠ fieldManager) (f : Field) :
    (Resource.created labels annotations data creator).Owner f ≠ some fieldManager := by
  intro hf
  cases f with
  | Label k =>
    simp only [Resource.created] at hf
    cases hl : labels k with
    | none => rw [hl] at hf; cases hf
    | some v => rw [hl] at hf; exact hc (Option.some.inj hf)
  | Annot k =>
    simp only [Resource.created] at hf
    cases hl : annotations k with
    | none => rw [hl] at hf; cases hf
    | some v => rw [hl] at hf; exact hc (Option.some.inj hf)
  | Data k =>
    simp only [Resource.created] at hf
    cases hl : data k with
    | none => rw [hl] at hf; cases hf
    | some v => rw [hl] at hf; exact hc (Option.some.inj hf)

/-- The identity `fieldManager` owns no field of the ConfigMap of the integration test. -/
theorem testConfigMap_Owner_ne (f : Field) : testConfigMap.Owner f ≠ some fieldManager :=
  created_Owner_ne _ _ _ _ (by decide) f

/-- The store of the integration test holds its ConfigMap under the test request. -/
theorem testStore_key : testStore testRequest.key = some testConfigMap := by
  simp [testStore, testRequest, Request.key]

/-- The store `ownedStore` holds `ownedConfigMap` under the test request. -/
theorem ownedStore_key : ownedStore testRequest.key = some ownedConfigMap := by
  simp [ownedStore, testRequest, Request.key]

/-! ## Properties of the controllers -/

/-- C1, evaluated on the code: for every reconcile request `Injector.Reconcile` submits its
apply configuration to the client; that patch sets `data["ca.crt"]` to the content
`"bundle data"` and sets the Provenance Marker annotation to the lowercase hex SHA-256 of
the different string `"bundle data hash"`, which is not the digest of the injected
content. -/
theorem injector_annotation_is_not_digest_of_content (BundleHashAnnotationKey : String)
    (request : Request) :
    (∀ (σ : Type) (c : Client σ) (t : σ),
      Injector.Reconcile GenerateConfigMapPatch c BundleHashAnnotationKey request t =
        ((⟨false, 0⟩,
          (c.Patch request.key ⟨Injector.applyConfig BundleHashAnnotationKey request⟩
            fieldManager true t).1),
          (c.Patch request.key ⟨Injector.applyConfig BundleHashAnnotationKey request⟩
            fieldManager true t).2)) ∧
    (Injector.applyConfig BundleHashAnnotationKey request).Data.get? "ca.crt"
        = some "bundle data" ∧
    (Injector.applyConfig BundleHashAnnotationKey request).Annotations.get?
        BundleHashAnnotationKey
        = some "33640d158e9a3673ef8c9d54b9c64fd3822a672ca8bbbf131a00b1274e5de2e4" ∧
    contentHash "bundle data"
        = "b4c51536de95e821e5b5a6b361233f896d69739a7d8f2d18518eeda9c9e36e69" ∧
    ∃ c, (Injector.applyConfig BundleHashAnnotationKey request).Data.get? "ca.crt" = some c ∧
      (Injector.applyConfig BundleHashAnnotationKey request).Annotations.get?
        BundleHashAnnotationKey ≠ some (contentHash c) := by
  have hd := injector_applyConfig_get BundleHashAnnotationKey request (.Data "ca.crt")
  have ha := injector_applyConfig_get BundleHashAnnotationKey request
    (.Annot BundleHashAnnotationKey)
  simp only [ConfigMapApplyConfiguration.get, if_true] at hd ha
  refine ⟨fun _ c t => injector_Reconcile_eq c BundleHashAnnotationKey request t, hd,
    by rw [ha, dataHash_eq], contentHash_bundle_data, "bundle data", hd, ?_⟩
  rw [ha, dataHash_eq, contentHash_bundle_data]
  decide

/-- C2, refuted: with a client whose patch submission fails with a not-found error, both
`Injector.Reconcile` and `Cleaner.Reconcile` return a non-nil error. -/
theorem reconcile_not_found_is_an_error :
    (goneClient.Patch ⟨"default", "cm-1"⟩
        ⟨Injector.applyConfig "trust.cert-manager.io/hash" ⟨"default", "cm-1"⟩⟩
        fieldManager true ()).1 = some Error.NotFound ∧
    (goneClient.Patch ⟨"default", "cm-1"⟩ ⟨Cleaner.applyConfig ⟨"default", "cm-1"⟩⟩
        fieldManager true ()).1 = some Error.NotFound ∧
    (Injector.Reconcile GenerateConfigMapPatch goneClient "trust.cert-manager.io/hash"
        ⟨"default", "cm-1"⟩ ()).1.2 ≠ none ∧
    (Cleaner.Reconcile GenerateConfigMapPatch goneClient ⟨"default", "cm-1"⟩ ()).1.2 ≠ none := by
  refine ⟨rfl, rfl, ?_, ?_⟩
  · rw [injector_Reconcile_eq]
    simp [goneClient]
  · rw [cleaner_Reconcile_eq]
    simp [goneClient]

/-- C2, amended: for every patch generator, client, request and state, `Injector.Reconcile`
and `Cleaner.Reconcile` return the zero `Result` and exactly the error of the patch
generation or else of the patch submission; so a submission that fails with a not-found
error makes both return that not-found error, and nil is returned only for a submission
that succeeds. -/
theorem reconcile_returns_the_patch_error {σ : Type} (generate : PatchGenerator)
    (c : Client σ) (BundleHashAnnotationKey : String) (request : Request) (s : σ) :
    ((Injector.Reconcile generate c BundleHashAnnotationKey request s).1 =
      (⟨false, 0⟩,
        match generate (Injector.applyConfig BundleHashAnnotationKey request) with
        | .error err => some err
        | .ok (configMap, patch) => (c.Patch configMap patch fieldManager true s).1)) ∧
    ((Cleaner.Reconcile generate c request s).1 =
      (⟨false, 0⟩,
        match generate (Cleaner.applyConfig request) with
        | .error err => some err
        | .ok (configMap, patch) => (c.Patch configMap patch fieldManager true s).1)) ∧
    (∀ configMap patch,
      generate (Injector.applyConfig BundleHashAnnotationKey request) = .ok (configMap, patch) →
      (c.Patch configMap patch fieldManager true s).1 = some Error.NotFound →
      (Injector.Reconcile generate c BundleHashAnnotationKey request s).1.2
        = some Error.NotFound) ∧
    (∀ configMap patch,
      generate (Cleaner.applyConfig request) = .ok (configMap, patch) →
      (c.Patch configMap patch fieldManager true s).1 = some Error.NotFound →
      (Cleaner.Reconcile generate c request s).1.2 = some Error.NotFound) := by
  refine ⟨?_, ?_, ?_, ?_⟩
  · unfold Injector.Reconcile patchConfigMap
    cases generate (Injector.applyConfig BundleHashAnnotationKey request) <;> rfl
  · unfold Cleaner.Reconcile patchConfigMap
    cases generate (Cleaner.applyConfig request) <;> rfl
  · intro configMap patch hg hp
    unfold Injector.Reconcile patchConfigMap
    rw [hg]
    exact hp
  · intro configMap patch hg hp
    unfold Cleaner.Reconcile patchConfigMap
    rw [hg]
    exact hp

/-- C7: the event filters of the two controllers are mutually exclusive: for every event,
whatever the labels and annotations of the object it reports (nil maps included), the
filter of the Injector and the filter of the Cleaner do not both accept it. -/
theorem filters_mutually_exclusive (BundleHashAnnotationKey : String) (e : Event) :
    ¬ (Injector.SetupWithManager.Predicates e = true ∧
        (Cleaner.SetupWithManager BundleHashAnnotationKey).Predicates e = true) := by
  rw [injector_filter_eq, cleaner_filter_eq]
  cases (e.Object.Labels.index BundleInjectLabelKey).2 <;> simp

/-- C8: the filter of the Cleaner accepts an event if and only if the annotations of the
object it reports contain the Provenance Marker key, with any value (the empty string
included), and its labels do not contain the key `trust-manager.io/inject-bundle`. -/
theorem cleaner_filter_iff (BundleHashAnnotationKey : String) (e : Event) :
    (Cleaner.SetupWithManager BundleHashAnnotationKey).Predicates e = true ↔
      (∃ v, e.Object.Annotations.get? BundleHashAnnotationKey = some v) ∧
        e.Object.Labels.get? "trust-manager.io/inject-bundle" = none := by
  rw [cleaner_filter_eq, Bool.and_eq_true, index_snd, Bool.not_eq_true',
    ← Bool.not_eq_true, index_snd]
  constructor
  · rintro ⟨ha, hl⟩
    refine ⟨ha, ?_⟩
    cases h : e.Object.Labels.get? "trust-manager.io/inject-bundle" with
    | none => rfl
    | some v => exact absurd ⟨v, h⟩ hl
  · rintro ⟨ha, hl⟩
    refine ⟨ha, ?_⟩
    rintro ⟨v, hv⟩
    rw [BundleInjectLabelKey, hl] at hv
    cases hv

/-- C9: the filter of the Injector accepts an event if and only if the labels of the
object it reports contain the key `trust-manager.io/inject-bundle`, whatever the value;
the empty string as value is accepted, a nil or empty labels map is rejected, and two
objects that agree on the presence of that key get the same answer, whatever their
annotations and other labels. -/
theorem injector_filter_iff :
    (∀ e : Event, Injector.SetupWithManager.Predicates e = true ↔
      ∃ v, e.Object.Labels.get? "trust-manager.io/inject-bundle" = some v) ∧
    (∀ e : Event, e.Object.Labels.get? "trust-manager.io/inject-bundle" = some "" →
      Injector.SetupWithManager.Predicates e = true) ∧
    (∀ e : Event, e.Object.Labels = none ∨ e.Object.Labels = some ∅ →
      Injector.SetupWithManager.Predicates e = false) ∧
    (∀ e e' : Event,
      ((e.Object.Labels.get? "trust-manager.io/inject-bundle").isSome =
        (e'.Object.Labels.get? "trust-manager.io/inject-bundle").isSome) →
      Injector.SetupWithManager.Predicates e = Injector.SetupWithManager.Predicates e') := by
  have key : ∀ e : Event, Injector.SetupWithManager.Predicates e =
      (e.Object.Labels.get? "trust-manager.io/inject-bundle").isSome := by
    intro e
    rw [injector_filter_eq]
    unfold GoMap.index BundleInjectLabelKey
    cases e.Object.Labels.get? "trust-manager.io/inject-bundle" <;> rfl
  refine ⟨?_, ?_, ?_, ?_⟩
  · intro e
    rw [key, Option.isSome_iff_exists]
  · intro e h
    rw [key, h]
    rfl
  · intro e h
    rw [key]
    rcases h with h | h <;> rw [h] <;> simp [GoMap.get?]
  · intro e e' h
    rw [key, key, h]

/-- C10: for every reconcile request, `Cleaner.Reconcile` submits, through any client, one
patch for the object with exactly the namespace and name of the request; the patch
carries that name and namespace and no label, no annotation (so no Provenance Marker)
and no data key. -/
theorem cleaner_patch_carries_identity_only (request : Request) :
    (∀ (σ : Type) (c : Client σ) (s : σ),
      Cleaner.Reconcile GenerateConfigMapPatch c request s =
        ((⟨false, 0⟩,
          (c.Patch ⟨request.Namespace, request.Name⟩ ⟨Cleaner.applyConfig request⟩
            fieldManager true s).1),
          (c.Patch ⟨request.Namespace, request.Name⟩ ⟨Cleaner.applyConfig request⟩
            fieldManager true s).2)) ∧
    (Cleaner.applyConfig request).Name = some request.Name ∧
    (Cleaner.applyConfig request).Namespace = some request.Namespace ∧
    (Cleaner.applyConfig request).Labels = none ∧
    (Cleaner.applyConfig request).Annotations = none ∧
    (Cleaner.applyConfig request).Data = none ∧
    (∀ f, (Cleaner.applyConfig request).get f = none) :=
  ⟨fun _ c s => cleaner_Reconcile_eq c request s, rfl, rfl, rfl, rfl, rfl,
    cleaner_applyConfig_get request⟩

/-- C3, refuted: on a ConfigMap whose data key `tls.crt` the identity `fieldManager` owns
(and whose key `ca.crt` no other writer owns), a successful Injector reconcile through
the field-scoped merge releases and removes `tls.crt`: the data map is not `D` with
`ca.crt` set. -/
theorem injector_reconcile_releases_owned_data :
    ownedStore testRequest.key = some ownedConfigMap ∧
    ownedConfigMap.Data "tls.crt" = some "bar" ∧
    ownedConfigMap.Owner (.Data "ca.crt") = none ∧
    (Injector.Reconcile GenerateConfigMapPatch apiServer "trust.cert-manager.io/hash"
        testRequest ownedStore).1 = (⟨false, 0⟩, none) ∧
    ∃ r1, (Injector.Reconcile GenerateConfigMapPatch apiServer "trust.cert-manager.io/hash"
        testRequest ownedStore).2 testRequest.key = some r1 ∧
      r1.Data "tls.crt" = none ∧
      r1.Data ≠ Function.update ownedConfigMap.Data "ca.crt" (some "bundle data") := by
  have hget : (ownedConfigMap.apply
      (Injector.applyConfig "trust.cert-manager.io/hash" testRequest) fieldManager).Data
        "tls.crt" = none := by
    show (ownedConfigMap.apply _ fieldManager).get (.Data "tls.crt") = none
    rw [apply_get, injector_applyConfig_get]
    simp [ownedConfigMap, Resource.created, testData]
  have hstep := injector_step_eq "trust.cert-manager.io/hash" testRequest ownedStore
  simp only [ownedStore_key] at hstep
  rw [hstep]
  refine ⟨ownedStore_key, ?_, ?_, rfl, _, by simp only [Function.update_same], hget, ?_⟩
  · simp [ownedConfigMap, Resource.created, testData]
  · simp [ownedConfigMap, Resource.created, testData]
  · intro h
    have h2 := congrFun h "tls.crt"
    rw [hget] at h2
    simp [Function.update, ownedConfigMap, Resource.created, testData] at h2

/-- C3, amended: for every existing target resource with data map `D` of which the
identity `fieldManager` owns no data key other than `ca.crt`, one Injector reconcile
through the field-scoped merge succeeds and leaves the data map equal to `D` with the
single key `ca.crt` set to the bundle content `"bundle data"`: every other key keeps its
value and no other key is added. It holds whoever owned `ca.crt` before, as ownership is
forced. -/
theorem injector_reconcile_sets_only_ca_crt (BundleHashAnnotationKey : String) (s : Store)
    (request : Request) (r : Resource) (hr : s request.key = some r)
    (hown : ∀ k, k ≠ "ca.crt" → r.Owner (.Data k) ≠ some fieldManager) :
    (Injector.Reconcile GenerateConfigMapPatch apiServer BundleHashAnnotationKey request s).1
      = (⟨false, 0⟩, none) ∧
    ∃ r1, (Injector.Reconcile GenerateConfigMapPatch apiServer BundleHashAnnotationKey
        request s).2 request.key = some r1 ∧
      r1.Data = Function.update r.Data "ca.crt" (some "bundle data") := by
  rw [injector_step_eq, hr]
  refine ⟨rfl, _, Function.update_same _ _ _, ?_⟩
  funext k
  show ((r.apply (Injector.applyConfig BundleHashAnnotationKey request) fieldManager).get
    (.Data k)) = _
  rw [apply_get, injector_applyConfig_get]
  by_cases hk : k = "ca.crt"
  · subst hk
    simp
  · simp [hk, hown k hk, Resource.get]

/-- C3 on the ConfigMap of the integration test: after one Injector reconcile its data
are `tls.crt`, `tls.key` and `ca.crt`, and nothing else. -/
theorem injector_reconcile_sets_only_ca_crt_witness :
    testStore testRequest.key = some testConfigMap ∧
    (∀ k, k ≠ "ca.crt" → testConfigMap.Owner (.Data k) ≠ some fieldManager) ∧
    ∃ r1, (Injector.Reconcile GenerateConfigMapPatch apiServer "trust.cert-manager.io/hash"
        testRequest testStore).2 testRequest.key = some r1 ∧
      r1.Data "tls.crt" = some "bar" ∧ r1.Data "tls.key" = some "baz" ∧
      r1.Data "ca.crt" = some "bundle data" ∧ r1.Data "other" = none := by
  obtain ⟨_, r1, h1, h2⟩ := injector_reconcile_sets_only_ca_crt "trust.cert-manager.io/hash"
    testStore testRequest testConfigMap testStore_key (fun k _ => testConfigMap_Owner_ne _)
  refine ⟨testStore_key, fun k _ => testConfigMap_Owner_ne _, r1, h1, ?_⟩
  rw [h2]
  simp [Function.update, testConfigMap, Resource.created, testData]

/-- C4, refuted: on a ConfigMap without `ca.crt` and without the Provenance Marker whose
data key `tls.crt` the identity `fieldManager` owns, a successful Injector reconcile
followed by a successful Cleaner reconcile leaves a data map without `tls.crt`, which is
not the data map `D` it had. -/
theorem cleaner_does_not_restore_owned_data :
    ownedStore testRequest.key = some ownedConfigMap ∧
    ownedConfigMap.Data "ca.crt" = none ∧
    ownedConfigMap.Annotations "trust.cert-manager.io/hash" = none ∧
    ownedConfigMap.Data "tls.crt" = some "bar" ∧
    (Injector.Reconcile GenerateConfigMapPatch apiServer "trust.cert-manager.io/hash"
        testRequest ownedStore).1 = (⟨false, 0⟩, none) ∧
    (Cleaner.Reconcile GenerateConfigMapPatch apiServer testRequest
      (Injector.Reconcile GenerateConfigMapPatch apiServer "trust.cert-manager.io/hash"
        testRequest ownedStore).2).1 = (⟨false, 0⟩, none) ∧
    ∃ r2, (Cleaner.Reconcile GenerateConfigMapPatch apiServer testRequest
        (Injector.Reconcile GenerateConfigMapPatch apiServer "trust.cert-manager.io/hash"
          testRequest ownedStore).2).2 testRequest.key = some r2 ∧
      r2.Data "tls.crt" = none ∧ r2.Data ≠ ownedConfigMap.Data := by
  have hget : ((ownedConfigMap.apply
      (Injector.applyConfig "trust.cert-manager.io/hash" testRequest) fieldManager).apply
        (Cleaner.applyConfig testRequest) fieldManager).Data "tls.crt" = none := by
    show ((ownedConfigMap.apply _ fieldManager).apply _ fieldManager).get (.Data "tls.crt")
      = none
    rw [inject_then_clean_get, injector_applyConfig_get]
    simp [ownedConfigMap, Resource.created, testData]
  have hstep := injector_step_eq "trust.cert-manager.io/hash" testRequest ownedStore
  simp only [ownedStore_key] at hstep
  rw [hstep]
  simp only [cleaner_step_eq, Function.update_same, Function.update_idem]
  refine ⟨ownedStore_key, ?_, rfl, ?_, trivial, trivial, _, rfl, hget, ?_⟩
  · simp [ownedConfigMap, Resource.created, testData]
  · simp [ownedConfigMap, Resource.created, testData]
  · intro h
    have h2 := congrFun h "tls.crt"
    rw [hget] at h2
    simp [ownedConfigMap, Resource.created, testData] at h2

/-- C4, amended: retraction undoes injection. For every existing target resource whose
data map `D` has no `ca.crt` key and of which the identity `fieldManager` owns no data key
other than `ca.crt`, an Injector reconcile followed by a Cleaner reconcile, both through
the field-scoped merge, both succeed and leave the data map equal to `D`, without a
`ca.crt` key, and the Provenance Marker annotation absent; that holds in particular for
a resource without the Provenance Marker annotation. -/
theorem cleaner_undoes_injector (BundleHashAnnotationKey : String) (s : Store)
    (request : Request) (r : Resource) (hr : s request.key = some r)
    (hdata : r.Data "ca.crt" = none)
    (hown : ∀ k, k ≠ "ca.crt" → r.Owner (.Data k) ≠ some fieldManager) :
    (Injector.Reconcile GenerateConfigMapPatch apiServer BundleHashAnnotationKey request s).1
      = (⟨false, 0⟩, none) ∧
    (Cleaner.Reconcile GenerateConfigMapPatch apiServer request
      (Injector.Reconcile GenerateConfigMapPatch apiServer BundleHashAnnotationKey
        request s).2).1 = (⟨false, 0⟩, none) ∧
    ∃ r2, (Cleaner.Reconcile GenerateConfigMapPatch apiServer request
        (Injector.Reconcile GenerateConfigMapPatch apiServer BundleHashAnnotationKey
          request s).2).2 request.key = some r2 ∧
      r2.Data = r.Data ∧ r2.Data "ca.crt" = none ∧
      r2.Annotations BundleHashAnnotationKey = none := by
  have hd : ∀ k, ((r.apply (Injector.applyConfig BundleHashAnnotationKey request)
      fieldManager).apply (Cleaner.applyConfig request) fieldManager).Data k = r.Data k := by
    intro k
    show ((r.apply _ fieldManager).apply _ fieldManager).get (.Data k) = _
    rw [inject_then_clean_get, injector_applyConfig_get]
    by_cases hk : k = "ca.crt"
    · subst hk
      simp [hdata]
    · simp [hk, hown k hk, Resource.get]
  have ha : ((r.apply (Injector.applyConfig BundleHashAnnotationKey request)
      fieldManager).apply (Cleaner.applyConfig request) fieldManager).Annotations
        BundleHashAnnotationKey = none := by
    show ((r.apply _ fieldManager).apply _ fieldManager).get (.Annot BundleHashAnnotationKey)
      = _
    rw [inject_then_clean_get, injector_applyConfig_get]
    simp
  rw [injector_step_eq, hr]
  simp only [cleaner_step_eq, Function.update_same, Function.update_idem]
  exact ⟨trivial, trivial, _, rfl, funext hd, (hd "ca.crt").trans hdata, ha⟩

/-- C4 on the ConfigMap of the integration test: after injection and retraction its data
are `tls.crt` and `tls.key` again, without `ca.crt` and without the annotation. -/
theorem cleaner_undoes_injector_witness :
    testStore testRequest.key = some testConfigMap ∧
    testConfigMap.Data "ca.crt" = none ∧
    testConfigMap.Annotations "trust.cert-manager.io/hash" = none ∧
    (∀ k, k ≠ "ca.crt" → testConfigMap.Owner (.Data k) ≠ some fieldManager) ∧
    ∃ r2, (Cleaner.Reconcile GenerateConfigMapPatch apiServer testRequest
        (Injector.Reconcile GenerateConfigMapPatch apiServer "trust.cert-manager.io/hash"
          testRequest testStore).2).2 testRequest.key = some r2 ∧
      r2.Data = testConfigMap.Data ∧ r2.Data "ca.crt" = none ∧
      r2.Annotations "trust.cert-manager.io/hash" = none := by
  have hd : testConfigMap.Data "ca.crt" = none := by
    simp [testConfigMap, Resource.created, testData]
  have ha : testConfigMap.Annotations "trust.cert-manager.io/hash" = none := rfl
  obtain ⟨_, _, r2, h⟩ := cleaner_undoes_injector
    "trust.cert-manager.io/hash" testStore testRequest testConfigMap testStore_key hd
    (fun k _ => testConfigMap_Owner_ne _)
  exact ⟨testStore_key, hd, ha, fun k _ => testConfigMap_Owner_ne _, r2, h⟩

/-- C5, refuted: on a ConfigMap whose label `app` the identity `fieldManager` owns, one
Injector reconcile through the field-scoped merge removes that label, though no patch
names it. -/
theorem injector_reconcile_releases_owned_label :
    Field.Label "app" ≠ Field.Data "ca.crt" ∧
    Field.Label "app" ≠ Field.Annot "trust.cert-manager.io/hash" ∧
    (∀ request, (Injector.applyConfig "trust.cert-manager.io/hash" request).get
        (.Label "app") = none ∧ (Cleaner.applyConfig request).get (.Label "app") = none) ∧
    ownedStore.field testRequest.key (.Label "app") = some (some "my-app") ∧
    (run "trust.cert-manager.io/hash" [(.Inject, testRequest)] ownedStore).field
        testRequest.key (.Label "app") = some none := by
  refine ⟨by simp, by simp, fun request => ⟨?_, cleaner_applyConfig_get _ _⟩, ?_, ?_⟩
  · rw [injector_applyConfig_get]
  · simp [Store.field, ownedStore_key, ownedConfigMap, Resource.created, Resource.get,
      testLabels]
  · show (step "trust.cert-manager.io/hash" .Inject testRequest ownedStore).field _ _ = _
    rw [step_eq, ownedStore_key]
    simp only [Store.field, Function.update_same, Option.map_some']
    rw [apply_get, injector_applyConfig_get]
    simp [ownedConfigMap, Resource.created, testLabels]

/-- C5, amended: non-interference. A field that is neither `data["ca.crt"]` nor the
Provenance Marker annotation, that is every label, every other annotation and every other
data key, is named by no patch of `Injector.Reconcile` or `Cleaner.Reconcile`; hence, when
the identity `fieldManager` does not own that field of the resource, after every finite
sequence of Injector and Cleaner reconciles through the field-scoped merge the field has
the value it had before. -/
theorem reconciles_do_not_interfere (BundleHashAnnotationKey : String) (s : Store)
    (ops : List (Op × Request)) (key : ObjectKey) (f : Field) (hd : f ≠ .Data "ca.crt")
    (ha : f ≠ .Annot BundleHashAnnotationKey)
    (hfree : ∀ r, s key = some r → r.Owner f ≠ some fieldManager) :
    (∀ request, (Injector.applyConfig BundleHashAnnotationKey request).get f = none ∧
      (Cleaner.applyConfig request).get f = none) ∧
    (run BundleHashAnnotationKey ops s).field key f = s.field key f :=
  ⟨fun request =>
      ⟨patch_names_only_injected BundleHashAnnotationKey .Inject request f hd ha,
        patch_names_only_injected BundleHashAnnotationKey .Clean request f hd ha⟩,
    run_field BundleHashAnnotationKey key f hd ha ops s hfree⟩

/-- C5 on the ConfigMap of the integration test: after injection, retraction and two more
injections the data key `tls.crt` has the value it had. -/
theorem reconciles_do_not_interfere_witness :
    Field.Data "tls.crt" ≠ Field.Data "ca.crt" ∧
    Field.Data "tls.crt" ≠ Field.Annot "trust.cert-manager.io/hash" ∧
    (∀ r, testStore testRequest.key = some r →
      r.Owner (.Data "tls.crt") ≠ some fieldManager) ∧
    (run "trust.cert-manager.io/hash"
        [(.Inject, testRequest), (.Clean, testRequest), (.Inject, testRequest),
          (.Inject, testRequest)] testStore).field testRequest.key (.Data "tls.crt")
      = some (some "bar") := by
  have hfree : ∀ r, testStore testRequest.key = some r →
      r.Owner (.Data "tls.crt") ≠ some fieldManager := by
    intro r hr
    rw [testStore_key] at hr
    rw [← Option.some.inj hr]
    exact testConfigMap_Owner_ne _
  refine ⟨by decide, by simp, hfree, ?_⟩
  rw [(reconciles_do_not_interfere "trust.cert-manager.io/hash" testStore _
    testRequest.key (.Data "tls.crt") (by decide) (by simp) hfree).2]
  simp [Store.field, testStore_key, testConfigMap, Resource.created, Resource.get, testData]

/-- C6: idempotence of the Injector. For every request, `Injector.Reconcile` submits to
every client, in every state, the same patch, which depends on the request only; and
against the field-scoped merge a second Injector reconcile in a row leaves exactly the
store the first one left, and returns what the first one returned. -/
theorem injector_reconcile_idempotent (BundleHashAnnotationKey : String)
    (request : Request) (s : Store) :
    (∀ (σ : Type) (c : Client σ) (t : σ),
      Injector.Reconcile GenerateConfigMapPatch c BundleHashAnnotationKey request t =
        ((⟨false, 0⟩,
          (c.Patch request.key ⟨Injector.applyConfig BundleHashAnnotationKey request⟩
            fieldManager true t).1),
          (c.Patch request.key ⟨Injector.applyConfig BundleHashAnnotationKey request⟩
            fieldManager true t).2)) ∧
    (Injector.Reconcile GenerateConfigMapPatch apiServer BundleHashAnnotationKey request
      (Injector.Reconcile GenerateConfigMapPatch apiServer BundleHashAnnotationKey
        request s).2).2 =
      (Injector.Reconcile GenerateConfigMapPatch apiServer BundleHashAnnotationKey
        request s).2 ∧
    (Injector.Reconcile GenerateConfigMapPatch apiServer BundleHashAnnotationKey request
      (Injector.Reconcile GenerateConfigMapPatch apiServer BundleHashAnnotationKey
        request s).2).1 =
      (Injector.Reconcile GenerateConfigMapPatch apiServer BundleHashAnnotationKey
        request s).1 := by
  refine ⟨fun _ c t => injector_Reconcile_eq c BundleHashAnnotationKey request t, ?_, ?_⟩
  · rw [injector_step_eq BundleHashAnnotationKey request s]
    cases hs : s request.key with
    | none =>
      simp only []
      rw [injector_step_eq, hs]
    | some r =>
      simp only []
      rw [injector_step_eq, Function.update_same]
      simp only [apply_apply, Function.update_idem]
  · rw [injector_step_eq BundleHashAnnotationKey request s]
    cases hs : s request.key with
    | none =>
      simp only []
      rw [injector_step_eq, hs]
    | some r =>
      simp only []
      rw [injector_step_eq, Function.update_same]

end inject
